import Mathlib

/-
  Verification development for the backtracking parser-combinator engine
  (StreamAdapter, SkipPolicySpace, ParserChar/String/End, ParserAlternative,
  ParserChain, ParserMaybe, ParserMany, DeferredParser).

  The embedding models machine integers honestly: the cursor position and
  the repetition counter are C++ std::size_t values, i.e. natural numbers
  reduced modulo W = 2^64, with wrapping subtraction in put and wrapping
  increment and decrement in ParserMany.  Loops in the C++ (the whitespace
  skip loop, the repetition loop, the undo drain loop) are modelled with an
  explicit fuel parameter; a result of none means the fuel ran out or an
  assert fired, a result of some r means the C++ run terminates with r.
-/

/-- Width of std::size_t: positions and counters live modulo this. -/
def W : Nat := 2 ^ 64

/-- Model of std::isspace in the default locale (space, tab, newline,
vertical tab, form feed, carriage return). -/
def isspaceC (c : Char) : Bool :=
  c = ' ' || c = '\t' || c = '\n' || c = Char.ofNat 11 || c = Char.ofNat 12 || c = '\r'

/-- StreamAdapter from Stream.hh: a byte buffer plus a size_t cursor.
Each list element models one byte of the std::string. -/
structure StreamAdapter where
  s_ : List Char
  cur_pos : Nat
deriving DecidableEq

/-- StreamAdapter::next(howmany): if cur_pos + howmany <= s_.size(), advance
the cursor and hand back the howmany bytes starting at the old position,
else return null and leave the cursor alone.  The bounds test uses size_t
arithmetic, hence the reduction modulo W. -/
def StreamAdapter.next (s : StreamAdapter) (howmany : Nat) :
    Option (List Char) × StreamAdapter :=
  if (s.cur_pos + howmany) % W ≤ s.s_.length then
    (some ((s.s_.drop s.cur_pos).take howmany), ⟨s.s_, (s.cur_pos + howmany) % W⟩)
  else
    (none, s)

/-- StreamAdapter::next(1), returning the single byte when available. -/
def StreamAdapter.next1 (s : StreamAdapter) : Option Char × StreamAdapter :=
  if (s.cur_pos + 1) % W ≤ s.s_.length then
    (((s.s_.drop s.cur_pos).take 1).head?, ⟨s.s_, (s.cur_pos + 1) % W⟩)
  else
    (none, s)

/-- StreamAdapter::put(howmany): cur_pos -= howmany on a size_t, i.e.
wrapping subtraction modulo W.  The assert(cur_pos >= 0) in the source
compares an unsigned value against zero, so it never fires; see the C6
theorems below. -/
def StreamAdapter.put (s : StreamAdapter) (howmany : Nat) : StreamAdapter :=
  ⟨s.s_, (s.cur_pos + (W - howmany % W)) % W⟩

/-- Condition of the assert(cur_pos >= 0) inside StreamAdapter::put, after
the subtraction has happened: a size_t comparison against zero. -/
def putAssertCheck (s : StreamAdapter) (howmany : Nat) : Bool :=
  decide (0 ≤ (s.put howmany).cur_pos)

/-- Loop of SkipPolicySpace::skip: while next(1) is a whitespace byte keep
counting; on a non-whitespace byte put it back.  Returns the stream and the
count that the caller pushes.  Fuel models the while loop. -/
def skipLoop : Nat → StreamAdapter → Nat → Option (StreamAdapter × Nat)
  | 0, _, _ => none
  | f + 1, s, count =>
    match s.next1 with
    | (none, s1) => some (s1, count)
    | (some c, s1) =>
        if isspaceC c then skipLoop f s1 (count + 1) else some (s1.put 1, count)

/-- SkipPolicySpace::skip without the push: returns the advanced stream and
the consumed length.  The first byte is inspected separately, exactly as in
the source. -/
def skipSpace (f : Nat) (s : StreamAdapter) : Option (StreamAdapter × Nat) :=
  match s.next1 with
  | (none, s1) => some (s1, 0)
  | (some c, s1) =>
      if isspaceC c then skipLoop f s1 1 else some (s1.put 1, 0)

/-- SkipPolicySpace::skip including the push onto the counts_ stack. -/
def skipOp (f : Nat) (s : StreamAdapter) (counts : List Nat) :
    Option (StreamAdapter × List Nat) :=
  (skipSpace f s).map fun p => (p.1, p.2 :: counts)

/-- SkipPolicySpace::unskip: assert the stack is nonempty (none models the
assert firing), pop the top count and retreat by it when nonzero. -/
def unskipSpace (s : StreamAdapter) (counts : List Nat) :
    Option (StreamAdapter × List Nat) :=
  match counts with
  | [] => none
  | c :: rest => some (if c ≠ 0 then s.put c else s, rest)

/-- Grammar nodes with their per-node mutable undo state, as in the source:
pchar, pstring, pend are the plain parsers of the second half of Stream.hh;
schar, sstring, send are the SkipPolicySpace variants of part_002 carrying
their skip-count stack; alt carries the whichs stack, pmaybe the reallis
stack and many the size_t count_ of the corresponding templates. -/
inductive P where
  | pchar (c : Char)
  | pstring (str : List Char)
  | pend
  | eps
  | schar (c : Char) (counts : List Nat)
  | sstring (str : List Char) (counts : List Nat)
  | send (counts : List Nat)
  | alt (a b : P) (whichs : List Nat)
  | chain (a b : P)
  | pmaybe (q : P) (reallis : List Bool)
  | many (q : P) (count : Nat)
deriving DecidableEq

mutual

/-- Parse step of every node, translated case by case from the source.
Returns the success flag, the node with its updated undo state, and the
stream.  Fuel bounds the recursion depth and loop iterations. -/
def parseP : Nat → P → StreamAdapter → Option (Bool × P × StreamAdapter)
  | 0, _, _ => none
  | f + 1, p, s =>
    match p with
    | .pchar c =>
        match s.next1 with
        | (none, s1) => some (false, .pchar c, s1)
        | (some ch, s1) =>
            if ch ≠ c then some (false, .pchar c, s1.put 1)
            else some (true, .pchar c, s1)
    | .pstring str =>
        match s.next str.length with
        | (none, s1) => some (false, .pstring str, s1)
        | (some cs, s1) =>
            if cs ≠ str then some (false, .pstring str, s1.put str.length)
            else some (true, .pstring str, s1)
    | .pend =>
        match s.next1 with
        | (some _, s1) => some (false, .pend, s1.put 1)
        | (none, s1) => some (true, .pend, s1)
    | .eps => some (true, .eps, s)
    | .schar c counts => do
        let (s1, k) ← skipSpace f s
        match s1.next1 with
        | (none, s2) => do
            let (s3, counts2) ← unskipSpace s2 (k :: counts)
            some (false, .schar c counts2, s3)
        | (some ch, s2) =>
            if ch ≠ c then do
              let (s3, counts2) ← unskipSpace (s2.put 1) (k :: counts)
              some (false, .schar c counts2, s3)
            else some (true, .schar c (k :: counts), s2)
    | .sstring str counts => do
        let (s1, k) ← skipSpace f s
        match s1.next str.length with
        | (none, s2) => do
            let (s3, counts2) ← unskipSpace s2 (k :: counts)
            some (false, .sstring str counts2, s3)
        | (some cs, s2) =>
            if cs ≠ str then do
              let (s3, counts2) ← unskipSpace (s2.put str.length) (k :: counts)
              some (false, .sstring str counts2, s3)
            else some (true, .sstring str (k :: counts), s2)
    | .send counts => do
        let (s1, k) ← skipSpace f s
        match s1.next1 with
        | (some _, s2) => do
            let (s3, counts2) ← unskipSpace (s2.put 1) (k :: counts)
            some (false, .send counts2, s3)
        | (none, s2) => some (true, .send (k :: counts), s2)
    | .alt a b whichs => do
        let (ra, a1, s1) ← parseP f a s
        if ra then some (true, .alt a1 b (1 :: whichs), s1)
        else do
          let (rb, b1, s2) ← parseP f b s1
          if rb then some (true, .alt a1 b1 (2 :: whichs), s2)
          else some (false, .alt a1 b1 whichs, s2)
    | .chain a b => do
        let (ra, a1, s1) ← parseP f a s
        if ra then do
          let (rb, b1, s2) ← parseP f b s1
          if rb then some (true, .chain a1 b1, s2)
          else do
            let (a2, s3) ← unparseP f a1 s2
            some (false, .chain a2 b1, s3)
        else some (false, .chain a1 b, s1)
    | .pmaybe q reallis => do
        let (r, q1, s1) ← parseP f q s
        some (true, .pmaybe q1 (r :: reallis), s1)
    | .many q count => manyLoop f q count s

/-- Loop of ParserMany::parse: while the wrapped parser succeeds increment
the size_t counter (wrapping modulo W); always return true. -/
def manyLoop : Nat → P → Nat → StreamAdapter → Option (Bool × P × StreamAdapter)
  | 0, _, _, _ => none
  | f + 1, q, count, s => do
      let (r, q1, s1) ← parseP f q s
      if r then manyLoop f q1 ((count + 1) % W) s1
      else some (true, .many q1 count, s1)

/-- Undo step of every node, translated case by case from the source. -/
def unparseP : Nat → P → StreamAdapter → Option (P × StreamAdapter)
  | 0, _, _ => none
  | f + 1, p, s =>
    match p with
    | .pchar c => some (.pchar c, s.put 1)
    | .pstring str => some (.pstring str, s.put str.length)
    | .pend => some (.pend, s)
    | .eps => some (.eps, s)
    | .schar c counts => do
        let (s1, counts1) ← unskipSpace (s.put 1) counts
        some (.schar c counts1, s1)
    | .sstring str counts => do
        let (s1, counts1) ← unskipSpace (s.put str.length) counts
        some (.sstring str counts1, s1)
    | .send counts => do
        let (s1, counts1) ← unskipSpace s counts
        some (.send counts1, s1)
    | .alt a b whichs =>
        match whichs with
        | [] => none
        | which :: rest =>
            if which = 1 then do
              let (a1, s1) ← unparseP f a s
              some (.alt a1 b rest, s1)
            else if which = 2 then do
              let (b1, s1) ← unparseP f b s
              some (.alt a b1 rest, s1)
            else none
    | .chain a b => do
        let (b1, s1) ← unparseP f b s
        let (a1, s2) ← unparseP f a s1
        some (.chain a1 b1, s2)
    | .pmaybe q reallis =>
        match reallis with
        | [] => none
        | true :: rest => do
            let (q1, s1) ← unparseP f q s
            some (.pmaybe q1 rest, s1)
        | false :: rest => some (.pmaybe q rest, s)
    | .many q count => do
        let (q1, s1) ← drainMany f count q s
        some (.many q1 (W - 1), s1)

/-- Loop of ParserMany::unparse: while (count_--) p_.unparse(stream).  The
post-decrement test runs the body exactly count times and then wraps the
counter from zero to W - 1; the caller records that final value. -/
def drainMany : Nat → Nat → P → StreamAdapter → Option (P × StreamAdapter)
  | 0, _, _, _ => none
  | _ + 1, 0, q, s => some (q, s)
  | f + 1, n + 1, q, s => do
      let (q1, s1) ← unparseP f q s
      drainMany f n q1 s1

end

/-- Success flag and final cursor position of a parse, discarding the node
state, for compact concrete evaluations. -/
def parseBP (f : Nat) (p : P) (s : StreamAdapter) : Option (Bool × Nat) :=
  (parseP f p s).map fun r => (r.1, r.2.2.cur_pos)

/-- maybe from ParserCombinators.hh: it is not ParserMaybe but the chain
of the argument with ParserEpsilon, so it fails whenever the argument
fails. -/
def maybeCC (p : P) : P := .chain p .eps

/-- ParserAlternative::parse of ParserCombinators.hh with the result
bookkeeping, the two children abstracted as their observable behaviour
(success flag, stream after the call, result delivered by getResult).
Returns the flag, the whichs stack, the stored result and the stream. -/
def altParse {α : Type} (A B : StreamAdapter → Bool × StreamAdapter × α)
    (whichs : List Nat) (s : StreamAdapter) :
    Bool × List Nat × Option α × StreamAdapter :=
  match A s with
  | (ra, sa, resa) =>
      if ra then (true, 1 :: whichs, some resa, sa)
      else
        match B sa with
        | (rb, sb, resb) =>
            if rb then (true, 2 :: whichs, some resb, sb)
            else (false, whichs, none, sb)

/-- DeferredParser::operator= of ParserBasics.hh (part_001): assert that
ops is still null, then install the adapter.  none models the assert
firing on a second assignment. -/
def deferredAssignChecked {α : Type} (ops : Option α) (p : α) : Option (Option α) :=
  if ops.isNone then some (some p) else none

/-- DeferredParser::operator= of the part_002 snapshot: install the adapter
unconditionally, silently discarding whatever ops held before. -/
def deferredAssignUnchecked {α : Type} (_ops : Option α) (p : α) : Option α :=
  some p

/-- Length of the maximal leading run of whitespace bytes: the reference
characterisation against which skipSpace is proved. -/
def wsRun : List Char → Nat
  | [] => 0
  | c :: t => if isspaceC c then wsRun t + 1 else 0

lemma wsRun_le (l : List Char) : wsRun l ≤ l.length := by
  induction l with
  | nil => simp [wsRun]
  | cons c t ih =>
      by_cases h : isspaceC c
      · simp [wsRun, h]; omega
      · simp [wsRun, h]

lemma wsRun_eq_length_iff (l : List Char) : wsRun l = l.length ↔ l.all isspaceC := by
  induction l with
  | nil => simp [wsRun]
  | cons c t ih =>
      by_cases h : isspaceC c
      · simpa [wsRun, h] using ih
      · have := wsRun_le t
        simp [wsRun, h]
        try omega

lemma put_of_le {s : StreamAdapter} {n : Nat} (h : n ≤ s.cur_pos) (hW : s.cur_pos < W) :
    s.put n = ⟨s.s_, s.cur_pos - n⟩ := by
  have hn : n % W = n := Nat.mod_eq_of_lt (lt_of_le_of_lt h hW)
  have h1 : s.cur_pos + (W - n % W) = W + (s.cur_pos - n) := by
    have hW0 : 0 < W := Nat.pos_pow_of_pos 64 (by norm_num)
    omega
  have h2 : (s.cur_pos - n) % W = s.cur_pos - n := Nat.mod_eq_of_lt (by omega)
  simp only [StreamAdapter.put, h1, Nat.add_mod_left, h2]

lemma next1_eq_some {s : StreamAdapter} (h : s.cur_pos < s.s_.length)
    (hW : s.s_.length < W) :
    s.next1 = (some (s.s_[s.cur_pos]), ⟨s.s_, s.cur_pos + 1⟩) := by
  have hmod : (s.cur_pos + 1) % W = s.cur_pos + 1 := Nat.mod_eq_of_lt (by omega)
  have hc : (s.cur_pos + 1) % W ≤ s.s_.length := by omega
  have hdrop : s.s_.drop s.cur_pos = s.s_[s.cur_pos] :: s.s_.drop (s.cur_pos + 1) :=
    List.drop_eq_getElem_cons h
  rw [StreamAdapter.next1, if_pos hc, hmod, hdrop]
  rfl

lemma next1_eq_none {s : StreamAdapter} (h : s.s_.length ≤ s.cur_pos)
    (hW : s.cur_pos + 1 < W) :
    s.next1 = (none, s) := by
  have hmod : (s.cur_pos + 1) % W = s.cur_pos + 1 := Nat.mod_eq_of_lt hW
  have hc : ¬ ((s.cur_pos + 1) % W ≤ s.s_.length) := by omega
  rw [StreamAdapter.next1, if_neg hc]

lemma skipLoop_spec :
    ∀ (f : Nat) (s : StreamAdapter) (c : Nat) (out : StreamAdapter × Nat),
    s.cur_pos ≤ s.s_.length → s.s_.length + 1 < W →
    skipLoop f s c = some out →
    out.2 = c + wsRun (s.s_.drop s.cur_pos) ∧
    out.1 = ⟨s.s_, s.cur_pos + wsRun (s.s_.drop s.cur_pos)⟩ := by
  intro f
  induction f with
  | zero => intro s c out _ _ h; simp [skipLoop] at h
  | succ f ih =>
      intro s c out h1 h2 h
      rcases Nat.lt_or_ge s.cur_pos s.s_.length with hlt | hge
      · have hnext := next1_eq_some hlt (by omega)
        have hdrop : s.s_.drop s.cur_pos
            = s.s_[s.cur_pos] :: s.s_.drop (s.cur_pos + 1) :=
          List.drop_eq_getElem_cons hlt
        rw [skipLoop, hnext] at h
        rw [hdrop]
        by_cases hsp : isspaceC (s.s_[s.cur_pos])
        · simp only [hsp, if_true] at h
          have := ih ⟨s.s_, s.cur_pos + 1⟩ (c + 1) out (by simpa using hlt) h2 h
          simp only [wsRun, hsp, if_true] at this ⊢
          obtain ⟨ha, hb⟩ := this
          refine ⟨by omega, ?_⟩
          rw [hb]
          congr 1
          omega
        · simp only [hsp, if_false, Bool.false_eq_true] at h
          have hput : (⟨s.s_, s.cur_pos + 1⟩ : StreamAdapter).put 1 = ⟨s.s_, s.cur_pos⟩ := by
            rw [put_of_le (Nat.le_add_left 1 s.cur_pos) (show s.cur_pos + 1 < W by omega)]
            simp
          rw [hput] at h
          cases h
          simp [wsRun, hsp]
      · have hpos : s.cur_pos = s.s_.length := le_antisymm h1 hge
        have hnext := next1_eq_none hge (by omega)
        rw [skipLoop, hnext] at h
        cases h
        have hdrop : s.s_.drop s.cur_pos = [] := by
          rw [hpos]; exact List.drop_length s.s_
        simp [hdrop, wsRun]

lemma skipSpace_spec {f : Nat} {s : StreamAdapter} {out : StreamAdapter × Nat}
    (h1 : s.cur_pos ≤ s.s_.length) (h2 : s.s_.length + 1 < W)
    (h : skipSpace f s = some out) :
    out.2 = wsRun (s.s_.drop s.cur_pos) ∧
    out.1 = ⟨s.s_, s.cur_pos + wsRun (s.s_.drop s.cur_pos)⟩ := by
  rcases Nat.lt_or_ge s.cur_pos s.s_.length with hlt | hge
  · have hnext := next1_eq_some hlt (by omega)
    have hdrop : s.s_.drop s.cur_pos
        = s.s_[s.cur_pos] :: s.s_.drop (s.cur_pos + 1) :=
      List.drop_eq_getElem_cons hlt
    rw [skipSpace, hnext] at h
    rw [hdrop]
    by_cases hsp : isspaceC (s.s_[s.cur_pos])
    · simp only [hsp, if_true] at h
      have := skipLoop_spec f ⟨s.s_, s.cur_pos + 1⟩ 1 out (by simpa using hlt) h2 h
      simp only [wsRun, hsp, if_true] at this ⊢
      obtain ⟨ha, hb⟩ := this
      refine ⟨by omega, ?_⟩
      rw [hb]
      congr 1
      omega
    · simp only [hsp, if_false, Bool.false_eq_true] at h
      have hput : (⟨s.s_, s.cur_pos + 1⟩ : StreamAdapter).put 1 = ⟨s.s_, s.cur_pos⟩ := by
        rw [put_of_le (Nat.le_add_left 1 s.cur_pos) (show s.cur_pos + 1 < W by omega)]
        simp
      rw [hput] at h
      cases h
      simp [wsRun, hsp]
  · have hpos : s.cur_pos = s.s_.length := le_antisymm h1 hge
    have hnext := next1_eq_none hge (by omega)
    rw [skipSpace, hnext] at h
    cases h
    have hdrop : s.s_.drop s.cur_pos = [] := by
      rw [hpos]; exact List.drop_length s.s_
    simp [hdrop, wsRun]

/-- Accessor for the whichs stack of an alternative node. -/
def altWhichs : P → List Nat
  | .alt _ _ w => w
  | _ => []

/-- Accessor for the reallis stack of an optional node. -/
def maybeReallis : P → List Bool
  | .pmaybe _ r => r
  | _ => []

/-- Accessor for the count_ field of a repetition node. -/
def manyCount : P → Nat
  | .many _ c => c
  | _ => 0

/-- Grammar that defeats the restoration invariant:
Sequence(Repetition(Alternative(Sequence(Repetition(char b), char a), char d)), End).
The inner repetition counter survives the failing alternative branch in one
outer iteration and is drained inside the next one, so the bookkeeping of
consumed input goes wrong. -/
def gBug : P :=
  .chain (.many (.alt (.chain (.many (.pchar 'b') 0) (.pchar 'a')) (.pchar 'd') []) 0) .pend

/-- C1.  Restoration invariant refuted by evaluation: on input dbx the
grammar gBug fails at top level, yet the cursor ends at position 1 instead
of the starting position 0.  In the failing outer iteration the inner
Repetition wrapped count_ past W and its drain then retreated one byte
fewer than that iteration had consumed. -/
theorem c1_restoration_failing_eval :
    parseBP 50 gBug ⟨"dbx".toList, 0⟩ = some (false, 1) := by decide

/-- C3.  Repetition count refuted by evaluation: P = Sequence(Repetition(char b), char a)
matches babbx exactly once (the prefix ba), so Repetition(P) should stop at
position 2; the engine stops at position 1 because the second, failing
attempt of P drains the accumulated count_ = 3 of the inner repetition and
retreats three bytes although that attempt had consumed only two. -/
theorem c3_repetition_count_failing_eval :
    parseBP 50 (.many (.chain (.many (.pchar 'b') 0) (.pchar 'a')) 0)
      ⟨"babbx".toList, 0⟩ = some (true, 1) := by decide

/-- C6.  Retreating past the start is silently tolerated: put(2) at
position 1 wraps the size_t cursor to W - 1, and the assert(cur_pos >= 0)
guarding it compares an unsigned value against zero, so it holds vacuously
and no error is signalled. -/
theorem c6_put_past_start_wraps_silently :
    (StreamAdapter.put ⟨['a', 'b'], 1⟩ 2).cur_pos = W - 1 ∧
    putAssertCheck ⟨['a', 'b'], 1⟩ 2 = true := by
  constructor <;> decide

/-- C7 counterexample.  The DeferredParser of the part_002 snapshot accepts
a second assignment without any error: after assigning char a and then
char b, the held grammar is char b and no failure is reported, so the
claim that a second assignment fails loudly is false for this snapshot. -/
theorem c7_second_assign_silent_overwrite_cex :
    deferredAssignUnchecked (deferredAssignUnchecked (none : Option P) (P.pchar 'a'))
      (P.pchar 'b') = some (P.pchar 'b') := by decide

/-- C7 amended.  The DeferredParser of ParserBasics.hh does enforce single
assignment: assigning into an empty node succeeds and stores the grammar,
while assigning into an already-set node trips assert(ops == nullptr),
modelled as none. -/
theorem c7_checked_assign_single_assignment :
    ∀ (p q : P),
    deferredAssignChecked (none : Option P) p = some (some p) ∧
    deferredAssignChecked (some q) p = none := by
  intro p q
  constructor <;> simp [deferredAssignChecked]

/-- C2 counterexample.  With A = gBug and B = char q, both children fail on
input dbx, yet Alternative(A, B) reports failure with the cursor at
position 1 instead of 0: the guarantee that each child restores itself on
failure does not hold for A, so the unconditional claim is false. -/
theorem c2_alternative_both_fail_moves_cursor_cex :
    parseBP 60 (.alt gBug (.pchar 'q') []) ⟨"dbx".toList, 0⟩ = some (false, 1) := by
  decide

/-- C2 amended.  Alternative tries A first; when A succeeds it pushes
Which_A, keeps the result of A and never consults B; when A fails B is run
on the stream A left behind; when both fail the combinator fails, and the
cursor is unchanged provided each failed child left the cursor where it
found it.  The last conjunct states, over the result-bearing
ParserAlternative of ParserCombinators.hh with the children abstracted as
their observable behaviour, that the stored result on a left success is
exactly the result of A and that B is never attempted. -/
theorem c2_alternation_precedence_amended :
    (∀ (f : Nat) (a b : P) (w : List Nat) (s : StreamAdapter) (a1 : P) (s1 : StreamAdapter),
      parseP f a s = some (true, a1, s1) →
      parseP (f + 1) (.alt a b w) s = some (true, .alt a1 b (1 :: w), s1)) ∧
    (∀ (f : Nat) (a b : P) (w : List Nat) (s : StreamAdapter) (a1 b1 : P)
        (s1 s2 : StreamAdapter),
      parseP f a s = some (false, a1, s1) →
      parseP f b s1 = some (false, b1, s2) →
      parseP (f + 1) (.alt a b w) s = some (false, .alt a1 b1 w, s2) ∧
      (s1.cur_pos = s.cur_pos → s2.cur_pos = s1.cur_pos → s2.cur_pos = s.cur_pos)) ∧
    (∀ (α : Type) (A B : StreamAdapter → Bool × StreamAdapter × α) (w : List Nat)
        (s : StreamAdapter),
      (A s).1 = true →
      altParse A B w s = (true, 1 :: w, some (A s).2.2, (A s).2.1) ∧
      ∀ B', altParse A B w s = altParse A B' w s) := by
  refine ⟨?_, ?_, ?_⟩
  · intro f a b w s a1 s1 h
    simp [parseP, h]
  · intro f a b w s a1 b1 s1 s2 ha hb
    refine ⟨by simp [parseP, ha, hb], ?_⟩
    intro e1 e2
    omega
  · intro α A B w s hA
    rcases hAs : A s with ⟨ra, sa, resa⟩
    rw [hAs] at hA
    simp only at hA
    subst hA
    constructor
    · simp [altParse, hAs]
    · intro B'
      simp [altParse, hAs]

/-- C2 witness. -/
theorem c2_alternation_precedence_amended_witness :
    parseP 6 (.alt (.pchar 'a') (.pchar 'b') []) ⟨['a'], 0⟩
      = some (true, .alt (.pchar 'a') (.pchar 'b') [1], ⟨['a'], 1⟩) ∧
    parseP 6 (.alt (.pchar 'a') (.pchar 'b') []) ⟨['c'], 0⟩
      = some (false, .alt (.pchar 'a') (.pchar 'b') [], ⟨['c'], 0⟩) ∧
    altParse (fun s => (true, s, (7 : Nat))) (fun s => (false, s, 0)) [] ⟨[], 0⟩
      = (true, [1], some 7, ⟨[], 0⟩) := by
  refine ⟨?_, ?_, ?_⟩
  · exact c2_alternation_precedence_amended.1 5 _ _ _ _ _ _ (by decide)
  · exact (c2_alternation_precedence_amended.2.1 5 (.pchar 'a') (.pchar 'b') []
      ⟨['c'], 0⟩ (.pchar 'a') (.pchar 'b') ⟨['c'], 0⟩ ⟨['c'], 0⟩
      (by decide) (by decide)).1
  · exact (c2_alternation_precedence_amended.2.2 Nat _ _ [] ⟨[], 0⟩ rfl).1

/-- C4 counterexample.  The maybe of ParserCombinators.hh is the chain of
its argument with ParserEpsilon, so maybe(char a) on input b fails instead
of succeeding: the claim that the Optional combinator always succeeds is
false for that definition. -/
theorem c4_maybe_fails_when_wrapped_fails_cex :
    parseBP 5 (maybeCC (.pchar 'a')) ⟨['b'], 0⟩ = some (false, 0) := by decide

/-- C4 amended.  The ParserMaybe of part_002 behaves as claimed: its parse
always succeeds and pushes the outcome of the wrapped parser onto reallis,
and its unparse undoes the wrapped parser exactly when the popped entry is
true.  The maybe of ParserCombinators.hh, in contrast, is chain with
epsilon and therefore fails exactly when the wrapped parser fails. -/
theorem c4_optional_amended :
    (∀ (f : Nat) (q : P) (st : List Bool) (s : StreamAdapter) (r : Bool) (q1 : P)
        (s1 : StreamAdapter),
      parseP f q s = some (r, q1, s1) →
      parseP (f + 1) (.pmaybe q st) s = some (true, .pmaybe q1 (r :: st), s1)) ∧
    (∀ (f : Nat) (q : P) (st : List Bool) (s : StreamAdapter) (q1 : P) (s1 : StreamAdapter),
      unparseP f q s = some (q1, s1) →
      unparseP (f + 1) (.pmaybe q (true :: st)) s = some (.pmaybe q1 st, s1)) ∧
    (∀ (f : Nat) (q : P) (st : List Bool) (s : StreamAdapter),
      unparseP (f + 1) (.pmaybe q (false :: st)) s = some (.pmaybe q st, s)) ∧
    (∀ (f : Nat) (p : P) (s : StreamAdapter) (p1 : P) (s1 : StreamAdapter),
      parseP f p s = some (false, p1, s1) →
      parseP (f + 1) (maybeCC p) s = some (false, .chain p1 .eps, s1)) := by
  refine ⟨?_, ?_, ?_, ?_⟩
  · intro f q st s r q1 s1 h
    simp [parseP, h]
  · intro f q st s q1 s1 h
    simp [unparseP, h]
  · intro f q st s
    simp [unparseP]
  · intro f p s p1 s1 h
    simp [maybeCC, parseP, h]

/-- C4 witness. -/
theorem c4_optional_amended_witness :
    parseP 6 (.pmaybe (.pchar 'a') []) ⟨['b'], 0⟩
      = some (true, .pmaybe (.pchar 'a') [false], ⟨['b'], 0⟩) ∧
    unparseP 6 (.pmaybe (.pchar 'a') [true]) ⟨['a'], 1⟩
      = some (.pmaybe (.pchar 'a') [], ⟨['a'], 0⟩) ∧
    unparseP 6 (.pmaybe (.pchar 'a') [false]) ⟨['b'], 0⟩
      = some (.pmaybe (.pchar 'a') [], ⟨['b'], 0⟩) ∧
    parseP 6 (maybeCC (.pchar 'a')) ⟨['b'], 0⟩
      = some (false, .chain (.pchar 'a') .eps, ⟨['b'], 0⟩) := by
  refine ⟨?_, ?_, ?_, ?_⟩
  · exact c4_optional_amended.1 5 (.pchar 'a') [] ⟨['b'], 0⟩ false (.pchar 'a')
      ⟨['b'], 0⟩ (by decide)
  · exact c4_optional_amended.2.1 5 (.pchar 'a') [] ⟨['a'], 1⟩ (.pchar 'a')
      ⟨['a'], 0⟩ (by decide)
  · exact c4_optional_amended.2.2.1 5 (.pchar 'a') [] ⟨['b'], 0⟩
  · exact c4_optional_amended.2.2.2 5 (.pchar 'a') ⟨['b'], 0⟩ (.pchar 'a')
      ⟨['b'], 0⟩ (by decide)

/-- C9 counterexample.  After a successful and committed top-level parse of
Alternative(char x, char y) on input x, the whichs stack holds the chosen
branch and is not empty, contradicting the claim that undo logs are empty
again after a fully committed parse. -/
theorem c9_committed_parse_leaves_undo_log_cex :
    parseP 5 (.alt (.pchar 'x') (.pchar 'y') []) ⟨['x'], 0⟩
      = some (true, .alt (.pchar 'x') (.pchar 'y') [1], ⟨['x'], 1⟩) ∧
    ([1] : List Nat) ≠ [] := by
  constructor <;> decide

/-- C9 amended.  Undo logs are empty only at construction.  A successful
parse of Alternative or Optional pushes an entry that stays on the stack
when the parse is committed, and unparse of Repetition always leaves
count_ = W - 1 (the post-decrement loop wraps through zero), never zero,
so a grammar node is not stateless across independent top-level parses. -/
theorem c9_undo_log_lifecycle_amended :
    (∀ (f : Nat) (q : P) (c : Nat) (s : StreamAdapter) (out : P × StreamAdapter),
      unparseP (f + 1) (.many q c) s = some out → manyCount out.1 = W - 1) ∧
    (∀ (f : Nat) (a b : P) (w : List Nat) (s : StreamAdapter)
        (out : Bool × P × StreamAdapter),
      parseP (f + 1) (.alt a b w) s = some out → out.1 = true →
      ∃ which, altWhichs out.2.1 = which :: w) ∧
    (∀ (f : Nat) (q : P) (st : List Bool) (s : StreamAdapter)
        (out : Bool × P × StreamAdapter),
      parseP (f + 1) (.pmaybe q st) s = some out →
      ∃ r, maybeReallis out.2.1 = r :: st) := by
  refine ⟨?_, ?_, ?_⟩
  · intro f q c s out h
    rw [unparseP] at h
    cases hd : drainMany f c q s with
    | none => rw [hd] at h; simp at h
    | some r => rw [hd] at h; simp at h; cases h; simp [manyCount]
  · intro f a b w s out h htrue
    cases ha : parseP f a s with
    | none => simp [parseP, ha] at h
    | some ra =>
        obtain ⟨r1, a1, s1⟩ := ra
        cases r1
        · cases hb : parseP f b s1 with
          | none => simp [parseP, ha, hb] at h
          | some rb =>
              obtain ⟨r2, b1, s2⟩ := rb
              cases r2
              · simp [parseP, ha, hb] at h
                subst h
                simp at htrue
              · simp [parseP, ha, hb] at h
                subst h
                exact ⟨2, rfl⟩
        · simp [parseP, ha] at h
          subst h
          exact ⟨1, rfl⟩
  · intro f q st s out h
    cases hq : parseP f q s with
    | none => simp [parseP, hq] at h
    | some rq =>
        obtain ⟨r1, q1, s1⟩ := rq
        simp [parseP, hq] at h
        subst h
        exact ⟨r1, rfl⟩

/-- C9 witness. -/
theorem c9_undo_log_lifecycle_amended_witness :
    manyCount (P.many (.pchar 'a') (W - 1)) = W - 1 ∧
    (∃ which, altWhichs (P.alt (.pchar 'a') (.pchar 'b') [1]) = which :: []) ∧
    (∃ r, maybeReallis (P.pmaybe (.pchar 'a') [false]) = r :: []) := by
  refine ⟨?_, ?_, ?_⟩
  · exact c9_undo_log_lifecycle_amended.1 2 (.pchar 'a') 0 ⟨[], 0⟩
      (P.many (.pchar 'a') (W - 1), ⟨[], 0⟩) (by decide)
  · exact c9_undo_log_lifecycle_amended.2.1 5 (.pchar 'a') (.pchar 'b') [] ⟨['a'], 0⟩
      (true, P.alt (.pchar 'a') (.pchar 'b') [1], ⟨['a'], 1⟩) (by decide) rfl
  · exact c9_undo_log_lifecycle_amended.2.2 5 (.pchar 'a') [] ⟨['b'], 0⟩
      (true, P.pmaybe (.pchar 'a') [false], ⟨['b'], 0⟩) (by decide)

/-- C8.  SkipPolicySpace round trip: skip consumes exactly the maximal
leading run of whitespace, pushes that length onto the counts_ stack, and
the matching unskip pops it and retreats by it, restoring the stream and
the stack exactly, also when the consumed run is empty. -/
theorem c8_skip_unskip_round_trip :
    ∀ (f : Nat) (s s1 : StreamAdapter) (counts counts1 : List Nat),
    s.cur_pos ≤ s.s_.length → s.s_.length + 1 < W →
    skipOp f s counts = some (s1, counts1) →
    counts1 = wsRun (s.s_.drop s.cur_pos) :: counts ∧
    s1 = ⟨s.s_, s.cur_pos + wsRun (s.s_.drop s.cur_pos)⟩ ∧
    unskipSpace s1 counts1 = some (s, counts) := by
  intro f s s1 counts counts1 h1 h2 h
  cases hs : skipSpace f s with
  | none => simp [skipOp, hs] at h
  | some out =>
      obtain ⟨s1', k⟩ := out
      obtain ⟨hk, hs1⟩ := skipSpace_spec h1 h2 hs
      simp only at hk hs1
      simp [skipOp, hs] at h
      obtain ⟨e1, e2⟩ := h
      subst e1
      subst e2
      subst hk
      subst hs1
      have hle : wsRun (s.s_.drop s.cur_pos) ≤ s.s_.length - s.cur_pos := by
        have := wsRun_le (s.s_.drop s.cur_pos)
        simpa using this
      refine ⟨rfl, rfl, ?_⟩
      by_cases hk0 : wsRun (s.s_.drop s.cur_pos) = 0
      · simp [unskipSpace, hk0]
      · have hput : (⟨s.s_, s.cur_pos + wsRun (s.s_.drop s.cur_pos)⟩ : StreamAdapter).put
            (wsRun (s.s_.drop s.cur_pos)) = ⟨s.s_, s.cur_pos⟩ := by
          rw [put_of_le (Nat.le_add_left _ _) (by simp; omega)]
          simp
        simp [unskipSpace, hk0, hput]

/-- C8 witness. -/
theorem c8_skip_unskip_round_trip_witness :
    [(2 : Nat), 5] = wsRun ((⟨"  a".toList, 0⟩ : StreamAdapter).s_.drop 0) :: [5] ∧
    (⟨"  a".toList, 2⟩ : StreamAdapter) = ⟨"  a".toList, 0 + wsRun ("  a".toList.drop 0)⟩ ∧
    unskipSpace ⟨"  a".toList, 2⟩ [2, 5] = some (⟨"  a".toList, 0⟩, [5]) := by
  exact c8_skip_unskip_round_trip 10 ⟨"  a".toList, 0⟩ ⟨"  a".toList, 2⟩ [5] [2, 5]
    (by decide) (by decide) (by decide)

/-- C5 counterexample.  The skip-policy ParserEnd of part_002 succeeds on
the input consisting of a single space although a byte is still available,
and it leaves the cursor at position 1 although it found it at position 0:
on success the whitespace consumed by the skip is kept. -/
theorem c5_skip_end_consumes_whitespace_cex :
    parseP 10 (.send ([] : List Nat)) ⟨[' '], 0⟩
      = some (true, .send [1], ⟨[' '], 1⟩) := by decide

/-- C5 amended.  The plain ParserEnd of Stream.hh satisfies the claim: it
succeeds exactly when no byte is available and never moves the cursor.
The skip-policy ParserEnd instead succeeds exactly when the remaining
input is all whitespace; on failure it restores the cursor exactly, on
success it has consumed that whitespace (undone only by a later unparse). -/
theorem c5_end_of_input_amended :
    ∀ (f : Nat) (s : StreamAdapter) (counts : List Nat) (s1 : StreamAdapter) (k : Nat),
    s.cur_pos ≤ s.s_.length → s.s_.length + 1 < W →
    (parseP (f + 1) .pend s = some (decide (s.s_.length ≤ s.cur_pos), .pend, s)) ∧
    (skipSpace f s = some (s1, k) →
      ((s.s_.drop s.cur_pos).all isspaceC = false →
        parseP (f + 1) (.send counts) s = some (false, .send counts, s)) ∧
      ((s.s_.drop s.cur_pos).all isspaceC = true →
        parseP (f + 1) (.send counts) s
          = some (true, .send (k :: counts), ⟨s.s_, s.s_.length⟩) ∧
        k = s.s_.length - s.cur_pos)) := by
  intro f s counts s1 k h1 h2
  obtain ⟨l, pos⟩ := s
  simp only at h1 h2
  constructor
  · rcases Nat.lt_or_ge pos l.length with hlt | hge
    · have hnext := next1_eq_some (s := ⟨l, pos⟩) hlt (show l.length < W by omega)
      have hput : (⟨l, pos + 1⟩ : StreamAdapter).put 1 = ⟨l, pos⟩ := by
        rw [put_of_le (Nat.le_add_left 1 pos) (show pos + 1 < W by omega)]
        simp
      have hdec : decide (l.length ≤ pos) = false := by
        simp
        omega
      simp [parseP, hnext, hput, hdec]
    · have hpos : pos = l.length := le_antisymm h1 hge
      have hnext := next1_eq_none (s := ⟨l, pos⟩) hge (show pos + 1 < W by omega)
      have hdec : decide (l.length ≤ pos) = true := by simp [hge]
      simp [parseP, hnext, hdec]
  · intro hsk
    obtain ⟨hk, hs1⟩ := skipSpace_spec (s := ⟨l, pos⟩) h1 h2 hsk
    simp only at hk hs1
    subst hk
    subst hs1
    have hle : wsRun (l.drop pos) ≤ l.length - pos := by
      have := wsRun_le (l.drop pos)
      simpa using this
    constructor
    · intro hall
      have hne : wsRun (l.drop pos) ≠ (l.drop pos).length := by
        intro he
        rw [wsRun_eq_length_iff] at he
        rw [he] at hall
        simp at hall
      have hlt : pos + wsRun (l.drop pos) < l.length := by
        have := List.length_drop pos l
        omega
      have hnext := next1_eq_some (s := ⟨l, pos + wsRun (l.drop pos)⟩) hlt
        (show l.length < W by omega)
      have hput1 : (⟨l, pos + wsRun (l.drop pos) + 1⟩ : StreamAdapter).put 1
          = ⟨l, pos + wsRun (l.drop pos)⟩ := by
        rw [put_of_le (Nat.le_add_left 1 _) (show pos + wsRun (l.drop pos) + 1 < W by omega)]
        simp
      by_cases hk0 : wsRun (l.drop pos) = 0
      · simp [parseP, hsk, hk0] at hnext hput1 ⊢
        simp [hnext, hput1, unskipSpace]
      · have hputk : (⟨l, pos + wsRun (l.drop pos)⟩ : StreamAdapter).put (wsRun (l.drop pos))
            = ⟨l, pos⟩ := by
          rw [put_of_le (Nat.le_add_left _ _) (show pos + wsRun (l.drop pos) < W by omega)]
          simp
        simp [parseP, hsk, hnext, hput1, unskipSpace, hk0, hputk]
    · intro hall
      have heq : wsRun (l.drop pos) = (l.drop pos).length :=
        (wsRun_eq_length_iff (l.drop pos)).mpr hall
      have hpos2 : pos + wsRun (l.drop pos) = l.length := by
        have := List.length_drop pos l
        omega
      have hnext := next1_eq_none (s := ⟨l, pos + wsRun (l.drop pos)⟩)
        (show l.length ≤ pos + wsRun (l.drop pos) by omega)
        (show pos + wsRun (l.drop pos) + 1 < W by omega)
      refine ⟨?_, ?_⟩
      · simp [parseP, hsk, hnext]
        rw [hpos2]
      · have := List.length_drop pos l
        show wsRun (l.drop pos) = l.length - pos
        omega

/-- C5 witness. -/
theorem c5_end_of_input_amended_witness :
    parseP 11 P.pend ⟨" a".toList, 0⟩ = some (false, .pend, ⟨" a".toList, 0⟩) ∧
    parseP 11 (.send ([] : List Nat)) ⟨" a".toList, 0⟩
      = some (false, .send [], ⟨" a".toList, 0⟩) ∧
    parseP 11 (.send ([] : List Nat)) ⟨"  ".toList, 0⟩
      = some (true, .send [2], ⟨"  ".toList, 2⟩) := by
  refine ⟨?_, ?_, ?_⟩
  · exact (c5_end_of_input_amended 10 ⟨" a".toList, 0⟩ [] ⟨" a".toList, 1⟩ 1
      (by decide) (by decide)).1
  · exact ((c5_end_of_input_amended 10 ⟨" a".toList, 0⟩ [] ⟨" a".toList, 1⟩ 1
      (by decide) (by decide)).2 (by decide)).1 (by decide)
  · exact (((c5_end_of_input_amended 10 ⟨"  ".toList, 0⟩ [] ⟨"  ".toList, 2⟩ 2
      (by decide) (by decide)).2 (by decide)).2 (by decide)).1


/-- Pass modes of parser_traits: a child is either copied into the
combinator or held by reference. -/
inductive PassType where
  | byValue
  | byRef
deriving DecidableEq

/-- parser_traits::pass_type from ParserBasics.hh: std::conditional over
std::is_base_of of DeferredParser picks a reference for deferred children
and a value copy for everything else. -/
def passTypeOf (isDeferredDerived : Bool) : PassType :=
  if isDeferredDerived then .byRef else .byValue

/-- Grammar fragment for the deferred-parser model: plain character
parsers, sequencing, alternation and a deferred reference.  The tree is
the immutable code of the grammar; the mutable whichs stack of each
ParserAlternative object lives in a separate store, addressed by the nid
of the node.  Distinct C++ objects carry distinct nids; the one grammar
object held inside a DeferredParser keeps its nids fixed, so every
recursive entry through the same slot reads and writes the same store
cells, exactly like the shared ops object of the C++.  A ddefer node
holds only the identity of the DeferredParser it aliases, which is what
models storage by reference. -/
inductive D where
  | dchar (c : Char)
  | dseq (a b : D)
  | dalt (nid : Nat) (a b : D)
  | ddefer (slot : Nat)
deriving DecidableEq

/-- Environment of DeferredParser objects: slot i holds the grammar
assigned into deferred parser i, none while unassigned.  Assignment
happens before parsing starts and the environment is read-only during a
run, as in the source, where operator= installs ops up front. -/
abbrev DEnv : Type := List (Option D)

/-- Store of the whichs stacks of all ParserAlternative objects, indexed
by node identity; a fresh grammar starts with every stack empty. -/
abbrev DStore : Type := List (List Nat)

/-- DeferredParser::operator= of part_002: install the grammar into the
slot unconditionally. -/
def envAssign (env : DEnv) (i : Nat) (g : D) : DEnv :=
  List.set env i (some g)

mutual

/-- Parse step over the deferred fragment, threading the store: dchar is
ParserChar of Stream.hh, dseq is ParserChain, dalt is ParserAlternative
pushing the chosen branch onto its own stack in the store, and ddefer is
DeferredParser::parse, which dispatches to whatever grammar its slot
holds when the call happens. -/
def parseD : Nat → DEnv → DStore → D → StreamAdapter →
    Option (Bool × DStore × StreamAdapter)
  | 0, _, _, _, _ => none
  | f + 1, env, sto, d, s =>
    match d with
    | .dchar c =>
        match s.next1 with
        | (none, s1) => some (false, sto, s1)
        | (some ch, s1) =>
            if ch ≠ c then some (false, sto, s1.put 1)
            else some (true, sto, s1)
    | .dseq a b => do
        let (ra, sto1, s1) ← parseD f env sto a s
        if ra then do
          let (rb, sto2, s2) ← parseD f env sto1 b s1
          if rb then some (true, sto2, s2)
          else do
            let (sto3, s3) ← unparseD f env sto2 a s2
            some (false, sto3, s3)
        else some (false, sto1, s1)
    | .dalt nid a b => do
        let (ra, sto1, s1) ← parseD f env sto a s
        if ra then some (true, sto1.set nid (1 :: sto1.getD nid []), s1)
        else do
          let (rb, sto2, s2) ← parseD f env sto1 b s1
          if rb then some (true, sto2.set nid (2 :: sto2.getD nid []), s2)
          else some (false, sto2, s2)
    | .ddefer slot =>
        match env[slot]? with
        | some (some g) => parseD f env sto g s
        | _ => none

/-- Undo step over the deferred fragment: dseq undoes right then left,
dalt pops its stack in the store before undoing the recorded branch
(none models the assert on an empty stack), and ddefer is
DeferredParser::unparse, again dispatching through the slot at call
time. -/
def unparseD : Nat → DEnv → DStore → D → StreamAdapter →
    Option (DStore × StreamAdapter)
  | 0, _, _, _, _ => none
  | f + 1, env, sto, d, s =>
    match d with
    | .dchar _ => some (sto, s.put 1)
    | .dseq a b => do
        let (sto1, s1) ← unparseD f env sto b s
        let (sto2, s2) ← unparseD f env sto1 a s1
        some (sto2, s2)
    | .dalt nid a b =>
        match sto.getD nid [] with
        | [] => none
        | which :: rest =>
            if which = 1 then unparseD f env (sto.set nid rest) a s
            else if which = 2 then unparseD f env (sto.set nid rest) b s
            else none
    | .ddefer slot =>
        match env[slot]? with
        | some (some g) => unparseD f env sto g s
        | _ => none

end

/-- Balanced-brace grammar assigned into deferred slot 0, referencing
itself through ddefer 0, after the recursive grammars of the test
drivers; its single alternative object is store cell 0. -/
def bracesD : D :=
  .dalt 0 (.dseq (.dchar '{') (.dchar '}'))
    (.dseq (.dchar '{') (.dseq (.ddefer 0) (.dchar '}')))

/-- Enclosing grammar composed around deferred slot 0 before any
assignment has happened. -/
def composedBeforeAssign : D := .dseq (.ddefer 0) (.dchar 'x')

/-- C10.  Construction-time binding: the parser_traits conditional passes
DeferredParser children by reference and every other child by value; a
ddefer node dispatches both attempt and unparse to the grammar found in
its slot at the moment of the call (the two general equations), so the
grammar composed around an unassigned deferred parser is inert until the
assignment and afterwards both its attempt and its unparse run the newly
assigned grammar, and a grammar assigned into its own slot can reference
itself: it accepts the nested input and a subsequent unparse pops the two
recorded choices of the shared alternative object, restoring the cursor
to 0 and its stack to empty. -/
theorem c10_deferred_late_binding :
    (passTypeOf true = .byRef ∧ passTypeOf false = .byValue) ∧
    (∀ (f : Nat) (env : DEnv) (sto : DStore) (slot : Nat) (g : D) (s : StreamAdapter),
      env[slot]? = some (some g) →
      parseD (f + 1) env sto (.ddefer slot) s = parseD f env sto g s ∧
      unparseD (f + 1) env sto (.ddefer slot) s = unparseD f env sto g s) ∧
    ((parseD 10 [none] [[]] composedBeforeAssign ⟨"ax".toList, 0⟩ = none ∧
      unparseD 10 [none] [[]] (.ddefer 0) ⟨"ax".toList, 2⟩ = none) ∧
     (parseD 10 (envAssign [none] 0 (.dchar 'a')) [[]] composedBeforeAssign
        ⟨"ax".toList, 0⟩ = some (true, [[]], ⟨"ax".toList, 2⟩) ∧
      unparseD 10 (envAssign [none] 0 (.dchar 'a')) [[]] composedBeforeAssign
        ⟨"ax".toList, 2⟩ = some ([[]], ⟨"ax".toList, 0⟩))) ∧
    (parseD 30 [some bracesD] [[]] (.ddefer 0) ⟨"{{}}".toList, 0⟩
        = some (true, [[2, 1]], ⟨"{{}}".toList, 4⟩) ∧
     unparseD 30 [some bracesD] [[2, 1]] (.ddefer 0) ⟨"{{}}".toList, 4⟩
        = some ([[]], ⟨"{{}}".toList, 0⟩)) := by
  refine ⟨⟨rfl, rfl⟩, ?_, ⟨by decide, by decide⟩, by decide⟩
  intro f env sto slot g s h
  constructor
  · rw [parseD, h]
  · rw [unparseD, h]

/-- C10 witness. -/
theorem c10_deferred_late_binding_witness :
    (parseD 6 [some (D.dchar 'a')] [[]] (.ddefer 0) ⟨['a'], 0⟩
      = parseD 5 [some (D.dchar 'a')] [[]] (.dchar 'a') ⟨['a'], 0⟩) ∧
    (unparseD 6 [some (D.dchar 'a')] [[]] (.ddefer 0) ⟨['a'], 1⟩
      = unparseD 5 [some (D.dchar 'a')] [[]] (.dchar 'a') ⟨['a'], 1⟩) :=
  ⟨(c10_deferred_late_binding.2.1 5 [some (D.dchar 'a')] [[]] 0 (.dchar 'a')
      ⟨['a'], 0⟩ (by decide)).1,
   (c10_deferred_late_binding.2.1 5 [some (D.dchar 'a')] [[]] 0 (.dchar 'a')
      ⟨['a'], 1⟩ (by decide)).2⟩
